import Mathlib

/-!
# Verification of the target-propagation training controller

Shallow embedding, in Lean 4, of the configuration post-processing in
`main.py` (`postprocess_args`, `launch`) of the repository
"A theoretical framework for target propagation", together with models of
the core training components (TargetPropagator, Layer, DiagnosticsEngine,
LayerSelectionPolicy) whose library code is described by the design
document.

Numbers are embedded as exact rationals (`ℚ`); the diagnostic angle
function, which uses `arccos`, is embedded over the reals.
-/

namespace TPVerify

/-! ## Configuration data model (from `main.py`, dataclass `Args`) -/

/-- The subset of the command-line argument record (`Args` in `main.py`)
that configuration post-processing reads or writes.  Fields keep the
source's names.  `lr` is a per-layer list of rationals (a scalar `lr` is
the singleton list, as in the source where a single float becomes the lr
of every layer). -/
structure Args where
  dataset : String
  output_activation : Option String
  hidden_activation : String
  fb_activation : Option String
  hidden_fb_activation : Option String
  optimizer : String
  optimizer_fb : Option String
  lr : List ℚ
  lr_fb : ℚ
  target_stepsize : ℚ
  normalize_lr : Bool
  network_type : String
  size_mlp_fb : Option (List ℕ)
  freeze_fb_weights : Bool
  train_randomized : Bool
  shallow_training : Bool
  classification : Bool := false
  regression : Bool := false
  diff_rec_loss : Bool := false
  direct_fb : Bool := false
  log_interval : Option ℕ := none
deriving Repr, DecidableEq

/-- Fatal configuration errors raised by `postprocess_args` in `main.py`
(`ValueError` in the source; the design document calls them ConfigError). -/
inductive ConfigError where
  | unsupportedDataset
  | shallowTrainingNonBP
deriving Repr, DecidableEq

/-- From `main.py` `postprocess_args`: default the output activation to
softmax for classification datasets and linear for regression datasets;
an unsupported dataset with no explicit output activation raises. -/
def resolveOutputActivation (oa : Option String) (classification regression : Bool) :
    Except ConfigError String :=
  match oa with
  | some s => Except.ok s
  | none =>
    if classification then Except.ok "softmax"
    else if regression then Except.ok "linear"
    else Except.error ConfigError.unsupportedDataset

/-- The five fields that the DFA-family rewrite in `postprocess_args`
touches together. -/
structure NTRewrite where
  network_type : String
  size_mlp_fb : Option (List ℕ)
  fb_activation : String
  freeze_fb_weights : Bool
  train_randomized : Bool
deriving Repr, DecidableEq

/-- From `main.py` `postprocess_args`: the DFA-family branches rewrite the
network type in place (DFA → DMLPDTP2, DFAConv → DDTPConv,
DFAConvCIFAR → DDTPConvCIFAR), forcing linear fixed (frozen) feedback and
disabling `train_randomized`; in the DFA case the feedback MLP has no
hidden layers (`size_mlp_fb = None`).  The three branches are disjoint on
the input `network_type` and no rewrite re-triggers a later branch, so the
source's sequential `if`s are this single conditional. -/
def rewriteNetworkType (a : Args) (fb_activation : String) (freeze : Bool) : NTRewrite :=
  if a.network_type = "DFA" then
    ⟨"DMLPDTP2", none, "linear", true, false⟩
  else if a.network_type = "DFAConv" then
    ⟨"DDTPConv", a.size_mlp_fb, "linear", true, false⟩
  else if a.network_type = "DFAConvCIFAR" then
    ⟨"DDTPConvCIFAR", a.size_mlp_fb, "linear", true, false⟩
  else ⟨a.network_type, a.size_mlp_fb, fb_activation, freeze, a.train_randomized⟩

/-- From `main.py` `postprocess_args`: `classification` is set when the
dataset is one of the image-classification datasets. -/
def classificationFlag (a : Args) : Bool :=
  ["mnist", "fashion_mnist", "cifar10"].contains a.dataset

/-- From `main.py` `postprocess_args`: `regression` is set for the
regression datasets. -/
def regressionFlag (a : Args) : Bool :=
  ["student_teacher", "boston"].contains a.dataset

/-- From `main.py` `postprocess_args`: for the GN network variants the
feedback weights need no training, so they are frozen. -/
def freezeAfterGN (a : Args) : Bool :=
  if ["GN", "GN2"].contains a.network_type then true else a.freeze_fb_weights

/-- From `main.py` `postprocess_args`: with `normalize_lr` the effective
forward learning rate is `lr / target_stepsize` (element-wise). -/
def normalizedLr (a : Args) : List ℚ :=
  if a.normalize_lr then a.lr.map (fun x => x / a.target_stepsize) else a.lr

/-- From `main.py` `postprocess_args`: the direct-feedback network types. -/
def directFbFlag (network_type : String) : Bool :=
  ["DKDTP", "DKDTP2", "DMLPDTP", "DMLPDTP2", "DDTPControl", "DDTPConv",
    "DDTPConvCIFAR", "DDTPConvControlCIFAR"].contains network_type

/-- Embedding of `postprocess_args` from `main.py` (and the equivalent
`Args.__post_init__`): classification/regression flags from the dataset
name, defaulting of the activation and optimizer options, learning-rate
normalization (`lr = lr / target_stepsize` when `normalize_lr`), the
GN/GN2 and DFA-family rewrites of `network_type` with their forced
sub-options, derivation of `diff_rec_loss` and `direct_fb`, and the final
shallow-training check.  IO (log directories, printing) is omitted. -/
def postprocess_args (a : Args) : Except ConfigError Args :=
  match resolveOutputActivation a.output_activation (classificationFlag a) (regressionFlag a) with
  | Except.error e => Except.error e
  | Except.ok oact =>
    let r := rewriteNetworkType a (a.fb_activation.getD a.hidden_activation) (freezeAfterGN a)
    if a.shallow_training && !(r.network_type == "BP") then
      Except.error ConfigError.shallowTrainingNonBP
    else
      Except.ok { a with
        output_activation := some oact
        fb_activation := some r.fb_activation
        hidden_fb_activation := some (a.hidden_fb_activation.getD a.hidden_activation)
        optimizer_fb := some (a.optimizer_fb.getD a.optimizer)
        lr := normalizedLr a
        network_type := r.network_type
        size_mlp_fb := r.size_mlp_fb
        freeze_fb_weights := r.freeze_fb_weights
        train_randomized := r.train_randomized
        classification := classificationFlag a
        regression := regressionFlag a
        diff_rec_loss := r.network_type == "DTPDR"
        direct_fb := directFbFlag r.network_type }

/-- From `main.py` `launch`: when no `log_interval` is configured, derive
it from the number of training minibatches as
`max(1, int(len(train_loader) / 100))`. -/
def resolve_log_interval (logInterval : Option ℕ) (numTrainBatches : ℕ) : ℕ :=
  match logInterval with
  | none => max 1 (numTrainBatches / 100)
  | some k => k

/-- The datasets the command-line parser accepts for `--dataset`. -/
def ParsedDataset (a : Args) : Prop :=
  a.dataset = "mnist" ∨ a.dataset = "student_teacher" ∨
    a.dataset = "fashion_mnist" ∨ a.dataset = "cifar10"

/-- A parsed dataset always resolves an output activation without error. -/
lemma resolveOutputActivation_ok_of_parsed (a : Args) (hd : ParsedDataset a) :
    ∃ oact, resolveOutputActivation a.output_activation
      (classificationFlag a) (regressionFlag a) = Except.ok oact := by
  unfold resolveOutputActivation classificationFlag regressionFlag
  cases a.output_activation with
  | some s => exact ⟨s, rfl⟩
  | none => rcases hd with h | h | h | h <;> rw [h] <;> exact ⟨_, rfl⟩

/-- The network-type rewrite never produces `"BP"` from a non-`"BP"` input. -/
lemma rewriteNetworkType_ne_BP (a : Args) (fb : String) (fr : Bool)
    (h : a.network_type ≠ "BP") :
    (rewriteNetworkType a fb fr).network_type ≠ "BP" := by
  unfold rewriteNetworkType
  split
  · simp
  · split
    · simp
    · split
      · simp
      · exact h

/-- On a `"BP"` configuration the network-type rewrite changes nothing. -/
lemma rewriteNetworkType_BP (a : Args) (fb : String) (fr : Bool)
    (h : a.network_type = "BP") :
    rewriteNetworkType a fb fr = ⟨"BP", a.size_mlp_fb, fb, fr, a.train_randomized⟩ := by
  unfold rewriteNetworkType
  rw [h]
  simp

/-- Successful post-processing leaves `lr_fb` unchanged and sets `lr`
according to the `normalize_lr` flag. -/
lemma postprocess_args_lr (a b : Args) (hok : postprocess_args a = Except.ok b) :
    b.lr = normalizedLr a ∧ b.lr_fb = a.lr_fb := by
  simp only [postprocess_args] at hok
  split at hok
  · exact absurd hok (by simp)
  · split at hok
    · exact absurd hok (by simp)
    · rw [Except.ok.injEq] at hok
      rw [← hok]
      exact ⟨rfl, rfl⟩

/-- **C1.** For every configuration with `network_type = "DFA"` on which
post-processing succeeds, the result has `network_type = "DMLPDTP2"`,
`fb_activation = "linear"`, `size_mlp_fb = None`,
`freeze_fb_weights = True` and `train_randomized = False`, regardless of
the input values of those five fields. -/
theorem dfa_rewrite (a b : Args) (hnt : a.network_type = "DFA")
    (hok : postprocess_args a = Except.ok b) :
    b.network_type = "DMLPDTP2" ∧ b.fb_activation = some "linear" ∧
      b.size_mlp_fb = none ∧ b.freeze_fb_weights = true ∧
      b.train_randomized = false := by
  have hr : ∀ fb fr, rewriteNetworkType a fb fr = ⟨"DMLPDTP2", none, "linear", true, false⟩ := by
    intro fb fr
    unfold rewriteNetworkType
    rw [hnt]
    simp
  simp only [postprocess_args, hr] at hok
  split at hok
  · exact absurd hok (by simp)
  · split at hok
    · exact absurd hok (by simp)
    · rw [Except.ok.injEq] at hok
      rw [← hok]
      exact ⟨rfl, rfl, rfl, rfl, rfl⟩

/-- A concrete parsed configuration requesting the DFA network. -/
def dfaExampleArgs : Args where
  dataset := "mnist"
  output_activation := none
  hidden_activation := "tanh"
  fb_activation := none
  hidden_fb_activation := none
  optimizer := "SGD"
  optimizer_fb := none
  lr := [1/100]
  lr_fb := 101/1000000
  target_stepsize := 1/100
  normalize_lr := false
  network_type := "DFA"
  size_mlp_fb := some [100]
  freeze_fb_weights := false
  train_randomized := true
  shallow_training := false

/-- Witness for `dfa_rewrite` at a concrete DFA configuration. -/
theorem dfa_rewrite_witness :
    ∃ b, postprocess_args dfaExampleArgs = Except.ok b ∧
      (b.network_type = "DMLPDTP2" ∧ b.fb_activation = some "linear" ∧
        b.size_mlp_fb = none ∧ b.freeze_fb_weights = true ∧
        b.train_randomized = false) := by
  obtain ⟨b, hb⟩ : ∃ b, postprocess_args dfaExampleArgs = Except.ok b := ⟨_, rfl⟩
  exact ⟨b, hb, dfa_rewrite dfaExampleArgs b rfl hb⟩

/-- **C6.** With `shallow_training = True`, post-processing of a parsed
configuration fails with the shallow-training ConfigError exactly when the
network type is not `"BP"`; with `network_type = "BP"` it succeeds. -/
theorem shallow_training_check (a : Args) (hd : ParsedDataset a)
    (hs : a.shallow_training = true) :
    (a.network_type ≠ "BP" →
      postprocess_args a = Except.error ConfigError.shallowTrainingNonBP) ∧
    (a.network_type = "BP" → ∃ b, postprocess_args a = Except.ok b) := by
  obtain ⟨oact, hra⟩ := resolveOutputActivation_ok_of_parsed a hd
  constructor
  · intro hbp
    have hne := rewriteNetworkType_ne_BP a (a.fb_activation.getD a.hidden_activation)
      (freezeAfterGN a) hbp
    have hne' : ((rewriteNetworkType a (a.fb_activation.getD a.hidden_activation)
        (freezeAfterGN a)).network_type == "BP") = false :=
      beq_eq_false_iff_ne.mpr hne
    simp only [postprocess_args, hra, hs, hne', Bool.not_false, Bool.and_self, if_true]
  · intro hbp
    have hr := rewriteNetworkType_BP a (a.fb_activation.getD a.hidden_activation)
      (freezeAfterGN a) hbp
    simp only [postprocess_args, hra, hr]
    simp

/-- A concrete parsed configuration: shallow training with a non-BP network. -/
def shallowNonBPArgs : Args :=
  { dfaExampleArgs with network_type := "DTP", shallow_training := true }

/-- A concrete parsed configuration: shallow training with the BP network. -/
def shallowBPArgs : Args :=
  { dfaExampleArgs with network_type := "BP", shallow_training := true }

/-- Witness for `shallow_training_check` at concrete configurations. -/
theorem shallow_training_check_witness :
    postprocess_args shallowNonBPArgs = Except.error ConfigError.shallowTrainingNonBP ∧
      ∃ b, postprocess_args shallowBPArgs = Except.ok b :=
  ⟨(shallow_training_check shallowNonBPArgs (Or.inl rfl) rfl).1 (by decide),
   (shallow_training_check shallowBPArgs (Or.inl rfl) rfl).2 rfl⟩

/-- **C10.** Successful post-processing with `normalize_lr = True`
replaces the forward learning rate by `lr / target_stepsize`
(element-wise); with `normalize_lr = False` the forward learning rate is
kept as given.  Either way `lr_fb` is unchanged. -/
theorem normalize_lr_rewrite (a b : Args) (hok : postprocess_args a = Except.ok b) :
    (a.normalize_lr = true → b.lr = a.lr.map fun x => x / a.target_stepsize) ∧
      (a.normalize_lr = false → b.lr = a.lr) ∧ b.lr_fb = a.lr_fb := by
  obtain ⟨hlr, hfb⟩ := postprocess_args_lr a b hok
  refine ⟨fun hn => ?_, fun hn => ?_, hfb⟩
  · rw [hlr]
    unfold normalizedLr
    rw [if_pos hn]
  · rw [hlr]
    unfold normalizedLr
    rw [if_neg (by simp [hn])]

/-- Witness for `normalize_lr_rewrite` at a concrete configuration with
`normalize_lr = True`. -/
theorem normalize_lr_rewrite_witness :
    ∃ b, postprocess_args { dfaExampleArgs with normalize_lr := true } = Except.ok b ∧
      ((true = true → b.lr = [1/100 / (1/100)]) ∧
        (true = false → b.lr = [1/100]) ∧ b.lr_fb = 101/1000000) := by
  obtain ⟨b, hb⟩ :
      ∃ b, postprocess_args { dfaExampleArgs with normalize_lr := true } = Except.ok b :=
    ⟨_, rfl⟩
  exact ⟨b, hb, normalize_lr_rewrite _ b hb⟩

/-! ## Target propagation core (library code; modelled from the design
document's §3–§4, since only its configuration-side callers live in
`main.py`) -/

/-- Activation / target vectors, embedded as lists of exact rationals. -/
abbrev Vec := List ℚ

/-- Element-wise vector addition. -/
def vadd (u v : Vec) : Vec := List.zipWith (fun x y => x + y) u v

/-- Element-wise vector subtraction. -/
def vsub (u v : Vec) : Vec := List.zipWith (fun x y => x - y) u v

/-- Scalar multiple of a vector. -/
def smul (c : ℚ) (v : Vec) : Vec := v.map (fun x => c * x)

/-- Modelled from the spec: a `Layer` of the network, holding the cached
activation from the most recent forward pass together with its
`FeedbackMapping` (the layer's learned approximate inverse), here an
arbitrary vector function.  The layer code (`lib/networks.py`) is not in
the provided sources. -/
structure Layer where
  activation : Vec
  fb : Vec → Vec

/-- Modelled from the spec (§4.1): `compute_target(downstream_target)`:
target = activation + feedback(downstream_target)
− feedback(downstream_activation) when difference-reconstruction is
enabled, else target = feedback(downstream_target).  `own` is the layer
receiving the target, `next` the downstream layer whose FeedbackMapping is
used. -/
def compute_target (diffRec : Bool) (own next : Layer) (nextTarget : Vec) : Vec :=
  if diffRec then
    vadd own.activation (vsub (next.fb nextTarget) (next.fb next.activation))
  else next.fb nextTarget

/-- One-hot encoding of class `c` in dimension `n`. -/
def oneHot (n c : ℕ) : Vec := (List.range n).map (fun i => if i = c then 1 else 0)

/-- Modelled from the spec (§4.3): under a softmax/cross-entropy pair the
analytic output-loss gradient is `prediction − one_hot_label`, computed
directly. -/
def softmaxCE_grad (prediction oneHotLabel : Vec) : Vec := vsub prediction oneHotLabel

/-- Modelled from the spec (§3, §4.3): the output layer's target is
`output_activation − target_stepsize × analytic_loss_gradient`. -/
def outputTarget (outputActivation : Vec) (targetStepsize : ℚ) (lossGrad : Vec) : Vec :=
  vsub outputActivation (smul targetStepsize lossGrad)

/-- Modelled from the spec (§4.3, chained topology): per-layer targets for
the hidden stack `hidden` (ordered input-adjacent first) given the output
layer `out` and its already-computed target `outTarget`; each hidden
layer's target comes from the next layer's already-computed target via the
next layer's FeedbackMapping, from output-adjacent down to input-adjacent.
Returns one target per layer, the last entry being the output target. -/
def chainedTargets (diffRec : Bool) (hidden : List Layer) (out : Layer) (outTarget : Vec) :
    List Vec :=
  match hidden with
  | [] => [outTarget]
  | own :: rest =>
    let ts := chainedTargets diffRec rest out outTarget
    compute_target diffRec own (rest.headD out) (ts.headD outTarget) :: ts

/-- Modelled from the spec (§4.3): the full target-propagation pass.  In a
direct-feedback network every hidden layer's target is one hop from the
output target via its own FeedbackMapping; otherwise targets chain. -/
def propagateTargets (diffRec directFb : Bool) (hidden : List Layer) (out : Layer)
    (outTarget : Vec) : List Vec :=
  if directFb then hidden.map (fun l => l.fb outTarget) ++ [outTarget]
  else chainedTargets diffRec hidden out outTarget

lemma chainedTargets_length (dr : Bool) (hs : List Layer) (out : Layer) (ot : Vec) :
    (chainedTargets dr hs out ot).length = hs.length + 1 := by
  induction hs with
  | nil => rfl
  | cons own rest ih => simp only [chainedTargets, List.length_cons, ih]

lemma chainedTargets_getLast? (dr : Bool) (hs : List Layer) (out : Layer) (ot : Vec) :
    (chainedTargets dr hs out ot).getLast? = some ot := by
  induction hs with
  | nil => rfl
  | cons own rest ih =>
    simp only [chainedTargets]
    cases h : chainedTargets dr rest out ot with
    | nil =>
      have := chainedTargets_length dr rest out ot
      rw [h] at this
      exact absurd this (by simp)
    | cons t l =>
      rw [h] at ih
      rw [List.getLast?_cons_cons]
      exact ih

/-- **C2.** Every target-propagation pass gives the output layer the
target `output_activation − target_stepsize × (prediction − one_hot
label)` (the analytic softmax/cross-entropy gradient); and with
`direct_fb = False` and no hidden layers this output target is the only
target computed. -/
theorem output_target_rule (diffRec directFb : Bool) (hidden : List Layer) (out : Layer)
    (ts : ℚ) (n c : ℕ) :
    (propagateTargets diffRec directFb hidden out
        (outputTarget out.activation ts (softmaxCE_grad out.activation (oneHot n c)))).getLast? =
      some (vsub out.activation (smul ts (vsub out.activation (oneHot n c)))) ∧
    propagateTargets diffRec false [] out
        (outputTarget out.activation ts (softmaxCE_grad out.activation (oneHot n c))) =
      [vsub out.activation (smul ts (vsub out.activation (oneHot n c)))] := by
  constructor
  · unfold propagateTargets
    split
    · rw [List.getLast?_append_cons]
      rfl
    · exact chainedTargets_getLast? diffRec hidden out _
  · rfl

/-- Index bound transport for `chainedTargets`. -/
lemma chainedTargets_lt (dr : Bool) (hs : List Layer) (out : Layer) (ot : Vec)
    {i : ℕ} (h : i < hs.length + 1) : i < (chainedTargets dr hs out ot).length := by
  rw [chainedTargets_length]
  exact h

/-- **C3.** `compute_target` implements the chained rule of §4.1 exactly,
and in the chained propagation each hidden layer `i`'s target is computed
from layer `i+1`'s already-computed target via layer `i+1`'s
FeedbackMapping alone (the downstream layer being the output layer when
`i` is the last hidden layer). -/
theorem chained_target_rule (dr : Bool) :
    (∀ (own next : Layer) (t : Vec),
      compute_target true own next t =
          vadd own.activation (vsub (next.fb t) (next.fb next.activation)) ∧
        compute_target false own next t = next.fb t) ∧
    ∀ (hidden : List Layer) (out : Layer) (ot : Vec) (i : ℕ) (hi : i < hidden.length),
      (chainedTargets dr hidden out ot).get
          ⟨i, chainedTargets_lt dr hidden out ot (Nat.lt_succ_of_lt hi)⟩ =
        compute_target dr (hidden.get ⟨i, hi⟩)
          (if h : i + 1 < hidden.length then hidden.get ⟨i + 1, h⟩ else out)
          ((chainedTargets dr hidden out ot).get
            ⟨i + 1, chainedTargets_lt dr hidden out ot (Nat.succ_lt_succ hi)⟩) := by
  refine ⟨fun own next t => ⟨rfl, rfl⟩, ?_⟩
  intro hidden out ot i hi
  induction hidden generalizing i with
  | nil => exact absurd hi (by simp)
  | cons own rest ih =>
    cases i with
    | zero =>
      cases rest with
      | nil => simp [chainedTargets]
      | cons own2 rest2 => simp [chainedTargets]
    | succ i =>
      have hi' : i < rest.length := Nat.lt_of_succ_lt_succ hi
      have := ih i hi'
      simp only [chainedTargets, List.get_cons_succ]
      rw [this]
      congr 1
      by_cases h : i + 1 < rest.length
      · rw [dif_pos h, dif_pos (show i + 1 + 1 < (own :: rest).length by
          simp only [List.length_cons]; omega)]
      · rw [dif_neg h, dif_neg (show ¬(i + 1 + 1 < (own :: rest).length) by
          simp only [List.length_cons]; omega)]

/-- Concrete layers for the chained-rule witness. -/
def exLayer0 : Layer := ⟨[1, 2], fun v => smul 2 v⟩

/-- Concrete layer for the chained-rule witness. -/
def exLayer1 : Layer := ⟨[3], fun v => vadd v v⟩

/-- Concrete output layer for the chained-rule witness. -/
def exOut : Layer := ⟨[5], fun v => v⟩

/-- Witness for `chained_target_rule` at a concrete two-hidden-layer
network, index 0. -/
theorem chained_target_rule_witness :
    (chainedTargets true [exLayer0, exLayer1] exOut [1]).get
        ⟨0, chainedTargets_lt true [exLayer0, exLayer1] exOut [1] (by simp)⟩ =
      compute_target true exLayer0
        (if h : 0 + 1 < [exLayer0, exLayer1].length then [exLayer0, exLayer1].get ⟨0 + 1, h⟩
          else exOut)
        ((chainedTargets true [exLayer0, exLayer1] exOut [1]).get
          ⟨0 + 1, chainedTargets_lt true [exLayer0, exLayer1] exOut [1] (by simp)⟩) :=
  (chained_target_rule true).2 [exLayer0, exLayer1] exOut [1] 0 (by simp)

/-! ## DiagnosticsEngine and LayerSelectionPolicy (modelled from the
design document's §4.5–§4.6; `lib/` is not in the provided sources) -/

/-- Dot product over rational vectors. -/
def dotQ (u v : Vec) : ℚ := (List.zipWith (fun x y => x * y) u v).sum

/-- Matrix–vector product (matrix as a list of rows). -/
def matVec (M : List (List ℚ)) (v : Vec) : Vec := M.map (fun row => dotQ row v)

/-- Modelled from the spec (§3): a layer's mutable state as the
DiagnosticsEngine and the selection policy see it — forward and feedback
weights, cached activation, computed target. -/
structure DiagLayer where
  forward_weights : List (List ℚ)
  feedback_weights : List (List ℚ)
  activation : Vec
  target : Vec
deriving Repr, DecidableEq

/-- Modelled from the spec (§3): per-layer diagnostic scalars comparing
the layer's local update to a reference update. -/
structure MetricsRecord where
  update_dot_ref : ℚ
  ref_norm_sq : ℚ
  update_norm_sq : ℚ
deriving Repr, DecidableEq

/-- Modelled from the spec (§4.6): for one layer, compute a
Tikhonov-damped reference update from the layer's weights, activation and
target, and record the comparison scalars from which angle and distance
are derived.  Reads but never writes the layer. -/
def layerMetrics (gn_damping : ℚ) (l : DiagLayer) : MetricsRecord :=
  let upd := vsub l.activation l.target
  let ref := vadd (matVec l.forward_weights upd) (smul gn_damping upd)
  ⟨dotQ upd ref, dotQ ref ref, dotQ upd upd⟩

/-- Modelled from the spec (§4.6): the DiagnosticsEngine pass walks the
layer stack, re-emitting the layer state and collecting one MetricsRecord
per layer. -/
def runDiagnostics (gn_damping : ℚ) (net : List DiagLayer) :
    List DiagLayer × List MetricsRecord :=
  net.foldr (fun l acc =>
    (⟨l.forward_weights, l.feedback_weights, l.activation, l.target⟩ :: acc.1,
      layerMetrics gn_damping l :: acc.2)) ([], [])

/-- **C4.** The DiagnosticsEngine is read-only: its pass returns the layer
stack — forward weights, feedback weights, activations, targets —
unchanged, running it twice over the same cached state changes nothing
and reports identical metrics, and the metrics are a pure per-layer map. -/
theorem diagnostics_read_only (d : ℚ) (net : List DiagLayer) :
    (runDiagnostics d net).1 = net ∧
      runDiagnostics d (runDiagnostics d net).1 = runDiagnostics d net ∧
      (runDiagnostics d net).2 = net.map (layerMetrics d) := by
  have h1 : ∀ m : List DiagLayer, (runDiagnostics d m).1 = m := by
    intro m
    induction m with
    | nil => rfl
    | cons l rest ih =>
      show (⟨l.forward_weights, l.feedback_weights, l.activation, l.target⟩ : DiagLayer) ::
          (runDiagnostics d rest).1 = l :: rest
      rw [ih]
  have h2 : ∀ m : List DiagLayer, (runDiagnostics d m).2 = m.map (layerMetrics d) := by
    intro m
    induction m with
    | nil => rfl
    | cons l rest ih =>
      show layerMetrics d l :: (runDiagnostics d rest).2 =
        layerMetrics d l :: rest.map (layerMetrics d)
      rw [ih]
  exact ⟨h1 net, by rw [h1 net], h2 net⟩

/-- Which weight family a randomized-single-layer step trains. -/
inductive WeightSide where
  | feedback
  | forward
deriving Repr, DecidableEq

/-- Apply the step's weight update to one layer, touching only the chosen
weight family. -/
def updateSelected (side : WeightSide) (upd : List (List ℚ) → List (List ℚ))
    (l : DiagLayer) : DiagLayer :=
  match side with
  | WeightSide.feedback => { l with feedback_weights := upd l.feedback_weights }
  | WeightSide.forward => { l with forward_weights := upd l.forward_weights }

/-- Modelled from the spec (§4.5, RANDOM_SINGLE): given the index `i`
drawn for this step, train only layer `i`'s feedback (or forward) weights
and leave every other layer untouched. -/
def randomSingleStep (side : WeightSide) (upd : List (List ℚ) → List (List ℚ)) :
    ℕ → List DiagLayer → List DiagLayer
  | _, [] => []
  | 0, l :: rest => updateSelected side upd l :: rest
  | i + 1, l :: rest => l :: randomSingleStep side upd i rest

/-- Modelled from the spec (§4.5, §5): the uniform draw of one hidden
layer from the single seeded random source. -/
def uniformDraw (numLayers seed : ℕ) : ℕ := seed % numLayers

lemma randomSingleStep_length (side : WeightSide) (upd : List (List ℚ) → List (List ℚ)) :
    ∀ (i : ℕ) (net : List DiagLayer),
      (randomSingleStep side upd i net).length = net.length := by
  intro i net
  induction net generalizing i with
  | nil => cases i <;> rfl
  | cons l rest ih =>
    cases i with
    | zero => rfl
    | succ i => simp only [randomSingleStep, List.length_cons, ih]

/-- Index bound transport for `randomSingleStep`. -/
lemma randomSingleStep_lt (side : WeightSide) (upd : List (List ℚ) → List (List ℚ))
    (i : ℕ) (net : List DiagLayer) {j : ℕ} (h : j < net.length) :
    j < (randomSingleStep side upd i net).length := by
  rw [randomSingleStep_length]
  exact h

lemma randomSingleStep_get_ne (side : WeightSide) (upd : List (List ℚ) → List (List ℚ)) :
    ∀ (i j : ℕ) (net : List DiagLayer) (hj : j < net.length), j ≠ i →
      (randomSingleStep side upd i net).get ⟨j, randomSingleStep_lt side upd i net hj⟩ =
        net.get ⟨j, hj⟩ := by
  intro i j net
  induction net generalizing i j with
  | nil => intro hj _; exact absurd hj (by simp)
  | cons l rest ih =>
    intro hj hne
    cases j with
    | zero =>
      cases i with
      | zero => exact absurd rfl hne
      | succ i => rfl
    | succ j =>
      cases i with
      | zero => rfl
      | succ i =>
        have hj' : j < rest.length := Nat.lt_of_succ_lt_succ hj
        have hne' : j ≠ i := fun h => hne (by rw [h])
        exact ih i j hj' hne'

lemma randomSingleStep_get_eq (side : WeightSide) (upd : List (List ℚ) → List (List ℚ)) :
    ∀ (i : ℕ) (net : List DiagLayer) (hi : i < net.length),
      (randomSingleStep side upd i net).get ⟨i, randomSingleStep_lt side upd i net hi⟩ =
        updateSelected side upd (net.get ⟨i, hi⟩) := by
  intro i net
  induction net generalizing i with
  | nil => intro hi; exact absurd hi (by simp)
  | cons l rest ih =>
    intro hi
    cases i with
    | zero => rfl
    | succ i => exact ih i (Nat.lt_of_succ_lt_succ hi)

/-- In every block of `L` consecutive seeds, each of the `L` hidden layers
is drawn exactly once (so each is selected with frequency exactly `1/L`). -/
lemma uniformDraw_block (L m : ℕ) :
    (List.range L).map (fun j => uniformDraw L (m * L + j)) = List.range L := by
  have h : ∀ j ∈ List.range L, uniformDraw L (m * L + j) = j := by
    intro j hj
    rw [List.mem_range] at hj
    unfold uniformDraw
    rw [Nat.add_comm, Nat.mul_comm, Nat.add_mul_mod_self_left, Nat.mod_eq_of_lt hj]
  rw [List.map_congr_left h, List.map_id']

/-- **C5.** Under RANDOM_SINGLE with drawn index `i`: the stack keeps its
length; every layer other than `i` is unchanged; layer `i` receives
exactly the selected-side weight update; in feedback mode no forward
weight changes anywhere (and symmetrically in the randomized-forward
mode); and the uniform draw selects each of the `L` layers exactly once
per block of `L` seeds. -/
theorem random_single_step_frame (side : WeightSide)
    (upd : List (List ℚ) → List (List ℚ)) (i : ℕ) (net : List DiagLayer)
    (hi : i < net.length) :
    (randomSingleStep side upd i net).length = net.length ∧
    (∀ j (hj : j < net.length), j ≠ i →
      (randomSingleStep side upd i net).get ⟨j, randomSingleStep_lt side upd i net hj⟩ =
        net.get ⟨j, hj⟩) ∧
    (randomSingleStep side upd i net).get ⟨i, randomSingleStep_lt side upd i net hi⟩ =
      updateSelected side upd (net.get ⟨i, hi⟩) ∧
    (side = WeightSide.feedback → ∀ j (hj : j < net.length),
      ((randomSingleStep side upd i net).get
          ⟨j, randomSingleStep_lt side upd i net hj⟩).forward_weights =
        (net.get ⟨j, hj⟩).forward_weights) ∧
    (side = WeightSide.forward → ∀ j (hj : j < net.length),
      ((randomSingleStep side upd i net).get
          ⟨j, randomSingleStep_lt side upd i net hj⟩).feedback_weights =
        (net.get ⟨j, hj⟩).feedback_weights) ∧
    (∀ m, (List.range net.length).map (fun j => uniformDraw net.length (m * net.length + j)) =
      List.range net.length) := by
  refine ⟨randomSingleStep_length side upd i net,
    fun j hj hne => randomSingleStep_get_ne side upd i j net hj hne,
    randomSingleStep_get_eq side upd i net hi, ?_, ?_, fun m => uniformDraw_block net.length m⟩
  · intro hside j hj
    by_cases hji : j = i
    · subst hji
      subst hside
      rw [randomSingleStep_get_eq WeightSide.feedback upd j net hj]
      rfl
    · rw [randomSingleStep_get_ne side upd i j net hj hji]
  · intro hside j hj
    by_cases hji : j = i
    · subst hji
      subst hside
      rw [randomSingleStep_get_eq WeightSide.forward upd j net hj]
      rfl
    · rw [randomSingleStep_get_ne side upd i j net hj hji]

/-- A concrete two-layer stack for the RANDOM_SINGLE witness. -/
def exDiagNet : List DiagLayer := [⟨[[1]], [[2]], [1], [0]⟩, ⟨[[3]], [[4]], [2], [1]⟩]

/-- Witness for `random_single_step_frame`: feedback side, index 0, on a
concrete two-layer stack. -/
theorem random_single_step_frame_witness :
    (randomSingleStep WeightSide.feedback (fun w => w ++ w) 0 exDiagNet).length =
        exDiagNet.length ∧
    (∀ j (hj : j < exDiagNet.length), j ≠ 0 →
      (randomSingleStep WeightSide.feedback (fun w => w ++ w) 0 exDiagNet).get
          ⟨j, randomSingleStep_lt WeightSide.feedback (fun w => w ++ w) 0 exDiagNet hj⟩ =
        exDiagNet.get ⟨j, hj⟩) ∧
    (randomSingleStep WeightSide.feedback (fun w => w ++ w) 0 exDiagNet).get
        ⟨0, randomSingleStep_lt WeightSide.feedback (fun w => w ++ w) 0 exDiagNet (by decide)⟩ =
      updateSelected WeightSide.feedback (fun w => w ++ w) (exDiagNet.get ⟨0, by decide⟩) ∧
    (WeightSide.feedback = WeightSide.feedback → ∀ j (hj : j < exDiagNet.length),
      ((randomSingleStep WeightSide.feedback (fun w => w ++ w) 0 exDiagNet).get
          ⟨j, randomSingleStep_lt WeightSide.feedback (fun w => w ++ w) 0 exDiagNet hj⟩).forward_weights =
        (exDiagNet.get ⟨j, hj⟩).forward_weights) ∧
    (WeightSide.feedback = WeightSide.forward → ∀ j (hj : j < exDiagNet.length),
      ((randomSingleStep WeightSide.feedback (fun w => w ++ w) 0 exDiagNet).get
          ⟨j, randomSingleStep_lt WeightSide.feedback (fun w => w ++ w) 0 exDiagNet hj⟩).feedback_weights =
        (exDiagNet.get ⟨j, hj⟩).feedback_weights) ∧
    (∀ m, (List.range exDiagNet.length).map
        (fun j => uniformDraw exDiagNet.length (m * exDiagNet.length + j)) =
      List.range exDiagNet.length) :=
  random_single_step_frame WeightSide.feedback (fun w => w ++ w) 0 exDiagNet (by decide)

/-! ## Diagnostic angle metric (modelled from the design document §4.6) -/

/-- Dot product over real vectors. -/
noncomputable def dotR (u v : List ℝ) : ℝ := (List.zipWith (fun x y => x * y) u v).sum

/-- Euclidean norm of a real vector. -/
noncomputable def vnorm (u : List ℝ) : ℝ := Real.sqrt (dotR u u)

/-- Clip a value into `[lo, hi]` (as `numpy.clip`). -/
noncomputable def clip (x lo hi : ℝ) : ℝ := max lo (min x hi)

/-- Modelled from the spec (§4.6): the DiagnosticsEngine angle,
`angle(u, v) = arccos(clip(u·v / (|u||v|), −1, 1))` converted to degrees. -/
noncomputable def angle (u v : List ℝ) : ℝ :=
  Real.arccos (clip (dotR u v / (vnorm u * vnorm v)) (-1) 1) * (180 / Real.pi)

lemma dotR_self_nonneg (u : List ℝ) : 0 ≤ dotR u u := by
  induction u with
  | nil => simp [dotR]
  | cons a u ih =>
    simp only [dotR, List.zipWith_cons_cons, List.sum_cons] at ih ⊢
    exact add_nonneg (mul_self_nonneg a) ih

lemma dotR_self_pos (u : List ℝ) (h : ∃ x ∈ u, x ≠ 0) : 0 < dotR u u := by
  induction u with
  | nil => simp at h
  | cons a u ih =>
    simp only [dotR, List.zipWith_cons_cons, List.sum_cons]
    rcases h with ⟨x, hx, hxne⟩
    rcases List.mem_cons.mp hx with rfl | hxu
    · exact add_pos_of_pos_of_nonneg (mul_self_pos.mpr hxne)
        (by simpa [dotR] using dotR_self_nonneg u)
    · exact add_pos_of_nonneg_of_pos (mul_self_nonneg a)
        (by simpa [dotR] using ih ⟨x, hxu, hxne⟩)

/-- **C7.** The diagnostic angle satisfies `angle(u, u) = 0°` for every
nonzero `u`, `angle([1,0], [-1,0]) = 180°` and `angle([1,0], [0,1]) = 90°`. -/
theorem angle_properties :
    (∀ u : List ℝ, (∃ x ∈ u, x ≠ 0) → angle u u = 0) ∧
      angle [1, 0] [-1, 0] = 180 ∧ angle [1, 0] [0, 1] = 90 := by
  refine ⟨fun u h => ?_, ?_, ?_⟩
  · have hpos := dotR_self_pos u h
    unfold angle vnorm clip
    rw [Real.mul_self_sqrt (le_of_lt hpos), div_self (ne_of_gt hpos), min_self,
      max_eq_right (by norm_num : (-1 : ℝ) ≤ 1), Real.arccos_one, zero_mul]
  · have hd : dotR [(1 : ℝ), 0] [-1, 0] = -1 := by norm_num [dotR]
    have hn1 : vnorm [(1 : ℝ), 0] = 1 := by
      unfold vnorm
      rw [show dotR [(1 : ℝ), 0] [1, 0] = 1 by norm_num [dotR], Real.sqrt_one]
    have hn2 : vnorm [(-1 : ℝ), 0] = 1 := by
      unfold vnorm
      rw [show dotR [(-1 : ℝ), 0] [-1, 0] = 1 by norm_num [dotR], Real.sqrt_one]
    unfold angle clip
    rw [hd, hn1, hn2, show (-1 : ℝ) / (1 * 1) = -1 by norm_num,
      min_eq_left (by norm_num : (-1 : ℝ) ≤ 1), max_self, Real.arccos_neg_one,
      mul_comm, div_mul_cancel₀ _ Real.pi_ne_zero]
  · have hd : dotR [(1 : ℝ), 0] [0, 1] = 0 := by norm_num [dotR]
    have hn1 : vnorm [(1 : ℝ), 0] = 1 := by
      unfold vnorm
      rw [show dotR [(1 : ℝ), 0] [1, 0] = 1 by norm_num [dotR], Real.sqrt_one]
    have hn2 : vnorm [(0 : ℝ), 1] = 1 := by
      unfold vnorm
      rw [show dotR [(0 : ℝ), 1] [0, 1] = 1 by norm_num [dotR], Real.sqrt_one]
    unfold angle clip
    rw [hd, hn1, hn2, show (0 : ℝ) / (1 * 1) = 0 by norm_num,
      min_eq_left (by norm_num : (0 : ℝ) ≤ 1),
      max_eq_right (by norm_num : (-1 : ℝ) ≤ 0), Real.arccos_zero]
    field_simp
    ring

/-- Witness for `angle_properties` at the concrete nonzero vector `[1, 1]`. -/
theorem angle_properties_witness : angle [1, 1] [1, 1] = 0 :=
  angle_properties.1 [1, 1] ⟨1, by simp, one_ne_zero⟩

/-- **C9.** When `log_interval` is not configured, the default logging
interval derived in `launch` equals `max 1 ⌊n / 100⌋` where `n` is the
number of training minibatches. -/
theorem default_log_interval (n : ℕ) :
    resolve_log_interval none n = max 1 (Nat.floor ((n : ℚ) / 100)) := by
  unfold resolve_log_interval
  rw [show ((100 : ℚ)) = ((100 : ℕ) : ℚ) by norm_num, Nat.floor_div_nat, Nat.floor_natCast]

end TPVerify
